import Mathlib

/-
Verification of the cypher blockchain core (cypher/blockchain.py,
cypher/wallet.py, cypher/utils.py).

Shallow embedding notes:
- Python ints are Lean `Int` (arbitrary precision in both).
- Python dicts used as default-0 counters (`d.get(k, 0)`) are embedded as
  total functions `String → Int` starting at `fun _ => 0`, updated
  pointwise with `upd`; the code never reads a dict except through
  `.get(k, 0)` / `d[k] = v`, so this is exact.
- SHA-256 over the canonical JSON encoding (`sha256(deterministic_dumps(..))`)
  is an external-library computation; it is embedded as an explicit function
  parameter (`H : Block → String`, hex digest).  In `validate_block` the
  proof-of-work re-encoding `deterministic_dumps({**content, "nonce":
  block.nonce})` ranges over exactly the same key/value mapping as
  `asdict(block)` (the five copied fields plus `nonce`), and
  `deterministic_dumps` sorts keys, so its digest coincides with
  `hash_block(block)`; the embedding uses `H block` for both.
- `str.startswith("0" * d)` on the hex digest is embedded as
  `starts_zeros`: the first `d` characters are all `'0'` (false when the
  string is shorter); Python's `"0" * d` is empty for `d ≤ 0`, hence
  `Int.toNat`.
- Block timestamps are opaque to every operation modelled here except the
  abstract hash, so they are embedded as `Int`.
- The ecdsa primitives used by `verify_signature` are embedded as a
  record of fallible functions (`SigPrims`), with `Except` playing the
  role of a raised Python exception.
-/

namespace Cypher

/-- Signature-verification oracle: models
`verify_signature(pubkey_hex, signature_hex, sender, recipient, amount, nonce)`
from cypher/wallet.py as used by the validator (a total Bool: the real
function catches every exception, see `verify_signature` below). -/
def VerifyFn : Type := String → String → String → String → Int → Int → Bool

/-- Address derivation oracle: models `address_from_pubkey_hex` from
cypher/utils.py (last 40 hex chars of sha256(pubkey bytes)). -/
def AddrFn : Type := String → String

/-- Transaction record: dataclass `Transaction` of cypher/blockchain.py.
`pubkey`/`signature` are `Optional[str]` defaulting to `None`. -/
structure Transaction where
  sender : String
  recipient : String
  amount : Int
  nonce : Int
  pubkey : Option String := none
  signature : Option String := none
deriving DecidableEq

/-- Models `Transaction.is_coinbase`: `self.sender in ("COINBASE", "GENESIS_FAUCET")`. -/
def Transaction.is_coinbase (tx : Transaction) : Bool :=
  tx.sender == "COINBASE" || tx.sender == "GENESIS_FAUCET"

/-- Block record: dataclass `Block` of cypher/blockchain.py, with its
transaction list already rehydrated into `Transaction` records (the raw
dict-shaped variant used for the exception-behaviour analysis is
`BlockR` below). -/
structure Block where
  index : Int
  timestamp : Int
  transactions : List Transaction
  previous_hash : String
  nonce : Int
  difficulty : Int
deriving DecidableEq

/-- Node state touched by the operations under verification: fields
`chain`, `current_transactions`, `nodes` of class `Blockchain`. -/
structure Node where
  chain : List Block
  current_transactions : List Transaction
  nodes : List String
deriving DecidableEq

/-- Dict update `d[k] = v` for a default-0 counter dict. -/
def upd (m : String → Int) (k : String) (v : Int) : String → Int :=
  fun x => if x == k then v else m x

/-- Python truthiness of an `Optional[str]` (`None` and `""` are falsy):
the guard `not (tx.pubkey and tx.signature)` in `validate_transaction`. -/
def truthy (o : Option String) : Bool :=
  match o with
  | none => false
  | some s => !(s == "")

/-- Models `h.startswith("0" * int(difficulty))` on a digest string:
the first `d` characters all `'0'` (and the string at least `d` long). -/
def starts_zeros (s : String) (d : Int) : Bool :=
  s.toList.take d.toNat == List.replicate d.toNat '0'

/-- Loop body of `compute_balances_and_nonces` for one transaction:
if the sender is not special, debit `amount` and raise the sender's
expected nonce to `max(old, nonce + 1)`; then always credit the
recipient (on the possibly already-debited balances). -/
def applyTx (bn : (String → Int) × (String → Int)) (tx : Transaction) :
    (String → Int) × (String → Int) :=
  let balances := bn.1
  let nonces := bn.2
  let bn2 :=
    if tx.sender == "COINBASE" || tx.sender == "GENESIS_FAUCET" then (balances, nonces)
    else (upd balances tx.sender (balances tx.sender - tx.amount),
          upd nonces tx.sender (max (nonces tx.sender) (tx.nonce + 1)))
  (upd bn2.1 tx.recipient (bn2.1 tx.recipient + tx.amount), bn2.2)

/-- Models `Blockchain.compute_balances_and_nonces`: fold over the blocks
of the chain in list order, and over each block's transactions in list
order. -/
def compute_balances_and_nonces (chain : List Block) :
    (String → Int) × (String → Int) :=
  chain.foldl (fun bn block => block.transactions.foldl applyTx bn)
    ((fun _ => 0), (fun _ => 0))

/-- Models `Blockchain.validate_transaction` (cypher/blockchain.py lines
166-193).  The ledger state is projected from the NODE'S OWN stored
chain (`self.chain`), whatever block or chain the transaction came from. -/
def validate_transaction (V : VerifyFn) (A : AddrFn) (s : Node)
    (tx : Transaction) : Bool :=
  if tx.is_coinbase then true
  else if !(truthy tx.pubkey && truthy tx.signature) then false
  else if !(V (tx.pubkey.getD "") (tx.signature.getD "") tx.sender tx.recipient
              tx.amount tx.nonce) then false
  else if !(A (tx.pubkey.getD "") == tx.sender) then false
  else if tx.amount ≤ 0 then false
  else if (compute_balances_and_nonces s.chain).1 tx.sender < tx.amount then false
  else if tx.nonce != (compute_balances_and_nonces s.chain).2 tx.sender then false
  else true

/-- Models `Blockchain.validate_block` (cypher/blockchain.py lines
195-214).  `H` is the block digest `sha256(deterministic_dumps(asdict(b)))`;
as explained in the header, the proof-of-work digest of
`{**content, "nonce": block.nonce}` is the digest of the same canonical
encoding, hence `H block`. -/
def validate_block (H : Block → String) (V : VerifyFn) (A : AddrFn)
    (s : Node) (block : Block) (previous_block : Option Block) : Bool :=
  let linkOk :=
    match previous_block with
    | none => true
    | some prev =>
        block.previous_hash == H prev && block.index == prev.index + 1
  if !linkOk then false
  else if !(starts_zeros (H block) block.difficulty) then false
  else block.transactions.all (fun t => validate_transaction V A s t)

/-- Recursion underlying `Blockchain.validate_chain`: `prev` is
`chain[i-1]` (`None` at `i = 0`). -/
def validate_chain_from (H : Block → String) (V : VerifyFn) (A : AddrFn)
    (s : Node) (prev : Option Block) : List Block → Bool
  | [] => true
  | b :: rest =>
      validate_block H V A s b prev &&
      validate_chain_from H V A s (some b) rest

/-- Models `Blockchain.validate_chain` (cypher/blockchain.py lines 216-221). -/
def validate_chain (H : Block → String) (V : VerifyFn) (A : AddrFn)
    (s : Node) (chain : List Block) : Bool :=
  validate_chain_from H V A s none chain

/-- Proof-of-work predicate for one candidate nonce: `hB n` is the digest
`sha256(deterministic_dumps({**base, "nonce": n}))` for the fixed `base`
dict of the call. -/
def powHit (hB : Nat → String) (difficulty : Int) (n : Nat) : Bool :=
  starts_zeros (hB n) difficulty

/-- The `while True` search loop of `Blockchain.proof_of_work`, with an
explicit fuel bound standing in for the loop's unboundedness (`none`
means the loop has not yet returned after `fuel` iterations). -/
def pow_loop (hB : Nat → String) (difficulty : Int) :
    Nat → Nat → Option Nat
  | 0, _ => none
  | Nat.succ fuel, n =>
      if powHit hB difficulty n then some n
      else pow_loop hB difficulty fuel (n + 1)

/-- Models `Blockchain.proof_of_work` (cypher/blockchain.py lines
135-143): the search starts at nonce 0. -/
def proof_of_work (hB : Nat → String) (difficulty : Int) (fuel : Nat) :
    Option Nat :=
  pow_loop hB difficulty fuel 0

/-- Successfully fetched peer chains: one entry per peer, `none` when the
fetch failed (non-ok response, timeout, unreachable peer, or a payload
whose rehydration/validation raised -- the `except` clause skips all of
these alike). -/
def candidates (fetched : List (Option (List Block))) : List (List Block) :=
  fetched.filterMap id

/-- The peer loop of `Blockchain.resolve_conflicts`: running pair
(longest, replaced), a candidate is adopted when it is strictly longer
than the current `longest` AND passes `validate_chain`. -/
def rc_loop (H : Block → String) (V : VerifyFn) (A : AddrFn) (s : Node) :
    List (Option (List Block)) → List Block × Bool → List Block × Bool
  | [], acc => acc
  | none :: rest, acc => rc_loop H V A s rest acc
  | some remote :: rest, acc =>
      if acc.1.length < remote.length && validate_chain H V A s remote then
        rc_loop H V A s rest (remote, true)
      else
        rc_loop H V A s rest acc

/-- Models `Blockchain.resolve_conflicts` (cypher/blockchain.py lines
269-291), with the per-peer fetch outcomes passed in explicitly: starts
from `(self.chain, False)`, and on `replaced` installs the winning chain
(persistence is an external effect, not modelled). -/
def resolve_conflicts (H : Block → String) (V : VerifyFn) (A : AddrFn)
    (s : Node) (fetched : List (Option (List Block))) : Node × Bool :=
  if (rc_loop H V A s fetched (s.chain, false)).2 then
    ({ s with chain := (rc_loop H V A s fetched (s.chain, false)).1 }, true)
  else (s, false)

/-- Raw dict-shaped transaction record as stored in `Block.transactions`
(a `List[Dict]` in the source): `none` in the first six fields means the
key is absent; `extra` lists keys beyond the dataclass fields. -/
structure RawTx where
  sender : Option String
  recipient : Option String
  amount : Option Int
  nonce : Option Int
  pubkey : Option (Option String)
  signature : Option (Option String)
  extra : List String
deriving DecidableEq

/-- Models the rehydration `Transaction(**t)` in `validate_block`: a
`TypeError` (here `Except.error`) when a required dataclass field is
missing or an unexpected key is passed; `pubkey`/`signature` default to
`None` when absent. -/
def rehydrate (t : RawTx) : Except String Transaction :=
  if !t.extra.isEmpty then Except.error "TypeError"
  else
    match t.sender, t.recipient, t.amount, t.nonce with
    | some s, some r, some a, some n =>
        Except.ok { sender := s, recipient := r, amount := a, nonce := n,
                    pubkey := t.pubkey.getD none,
                    signature := t.signature.getD none }
    | _, _, _, _ => Except.error "TypeError"

/-- Block whose transaction list is still dict-shaped, as
`validate_block` actually receives it. -/
structure BlockR where
  index : Int
  timestamp : Int
  transactions : List RawTx
  previous_hash : String
  nonce : Int
  difficulty : Int
deriving DecidableEq

/-- The transaction loop of `validate_block` over raw dicts: rehydrate
(`Transaction(**t)` may raise), then validate; the first invalid
transaction short-circuits to an overall `False`. -/
def validate_txsE (V : VerifyFn) (A : AddrFn) (s : Node) :
    List RawTx → Except String Bool
  | [] => Except.ok true
  | t :: rest =>
      match rehydrate t with
      | Except.error e => Except.error e
      | Except.ok tx =>
          if validate_transaction V A s tx then validate_txsE V A s rest
          else Except.ok false

/-- `Blockchain.validate_block` in the exception monad, on dict-shaped
transactions: the returned value is the Python boolean, `Except.error`
is an escaping exception. -/
def validate_blockE (HR : BlockR → String) (V : VerifyFn) (A : AddrFn)
    (s : Node) (block : BlockR) (previous_block : Option BlockR) :
    Except String Bool :=
  if !(match previous_block with
       | none => true
       | some prev =>
           block.previous_hash == HR prev && block.index == prev.index + 1) then
    Except.ok false
  else if !(starts_zeros (HR block) block.difficulty) then Except.ok false
  else validate_txsE V A s block.transactions

/-- Chain walk of `validate_chain` in the exception monad. -/
def validate_chainE_from (HR : BlockR → String) (V : VerifyFn) (A : AddrFn)
    (s : Node) (prev : Option BlockR) : List BlockR → Except String Bool
  | [] => Except.ok true
  | b :: rest =>
      match validate_blockE HR V A s b prev with
      | Except.error e => Except.error e
      | Except.ok ok =>
          if ok then validate_chainE_from HR V A s (some b) rest
          else Except.ok false

/-- `Blockchain.validate_chain` in the exception monad. -/
def validate_chainE (HR : BlockR → String) (V : VerifyFn) (A : AddrFn)
    (s : Node) (chain : List BlockR) : Except String Bool :=
  validate_chainE_from HR V A s none chain

/-- Stateful reading of `Blockchain.validate_transaction`: the method
body only reads `self.chain` (through `compute_balances_and_nonces`) and
assigns no attribute, so the embedding threads the receiver unchanged. -/
def validate_transactionS (V : VerifyFn) (A : AddrFn) (s : Node)
    (tx : Transaction) : Node × Bool :=
  (s, validate_transaction V A s tx)

/-- Stateful reading of `Blockchain.validate_block`: no attribute of
`self` is assigned anywhere in the method body. -/
def validate_blockS (H : Block → String) (V : VerifyFn) (A : AddrFn)
    (s : Node) (block : Block) (previous_block : Option Block) :
    Node × Bool :=
  (s, validate_block H V A s block previous_block)

/-- Stateful reading of `Blockchain.validate_chain`: no attribute of
`self` is assigned anywhere in the method body. -/
def validate_chainS (H : Block → String) (V : VerifyFn) (A : AddrFn)
    (s : Node) (chain : List Block) : Node × Bool :=
  (s, validate_chain H V A s chain)

/-- Fallible ecdsa/bytes primitives used by `verify_signature`
(cypher/wallet.py): `Except.error` models a raised Python exception.
`fromHex` is `bytes.fromhex`; `keyFrom` is
`VerifyingKey.from_string(.., curve=SECP256k1)` (the key is identified
with its byte string); `chk` is `vk.verify(sig, msg)`, `Except.ok ()`
meaning the signature verifies; `encodeMsg` is `tx_message` from
cypher/utils.py (a total function: JSON-dumping four typed scalars
cannot raise). -/
structure SigPrims where
  fromHex : String → Except String (List Nat)
  keyFrom : List Nat → Except String (List Nat)
  chk : List Nat → List Nat → List Nat → Except String Unit
  encodeMsg : String → String → Int → Int → List Nat

/-- Models `verify_signature` (cypher/wallet.py lines 28-37): the whole
body runs under one `try` whose handlers map `BadSignatureError` and
every other exception alike to `False`, so each raising step
short-circuits the remaining steps to `False`; the steps appear in the
source's evaluation order. -/
def verify_signature (P : SigPrims) (pubkey_hex signature_hex : String)
    (sender recipient : String) (amount nonce : Int) : Bool :=
  match P.fromHex pubkey_hex with
  | Except.error _ => false
  | Except.ok pkBytes =>
    match P.keyFrom pkBytes with
    | Except.error _ => false
    | Except.ok vk =>
      match P.fromHex signature_hex with
      | Except.error _ => false
      | Except.ok sigBytes =>
        match P.chk vk sigBytes (P.encodeMsg sender recipient amount nonce) with
        | Except.error _ => false
        | Except.ok _ => true

/-! Concrete instances used to evaluate the embedded operations on
explicit inputs.  The hash/signature oracles below are stand-ins for
particular values of the external primitives: `V0`/`A0` describe a
correctly signed transaction of a wallet whose address is `addrS`
(such pubkey/signature values exist for any wallet), and `H0`/`H2` fix
the digests relevant to each scenario. -/

/-- A 40-hex-character sender address (the scheme of
`address_from_pubkey_hex` yields 40-character addresses). -/
def addrS : String := "aaaaaaaaaaaaaaaaaaaaaaaaaaaaaaaaaaaaaaaa"

/-- A 40-hex-character recipient address. -/
def addrB : String := "bbbbbbbbbbbbbbbbbbbbbbbbbbbbbbbbbbbbbbbb"

/-- Signature oracle of a scenario in which every presented signature is
the correct one for its payload. -/
def V0 : VerifyFn := fun _ _ _ _ _ _ => true

/-- Address oracle mapping the scenario pubkey to `addrS`. -/
def A0 : AddrFn := fun _ => addrS

/-- Digest oracle assigning every block the empty digest (which has any
number `≤ 0` of leading zeros). -/
def H0 : Block → String := fun _ => ""

/-- Digest oracle assigning every block the digest "f" (no leading zero). -/
def H2 : Block → String := fun _ => "f"

/-- Digest oracle for raw-transaction blocks. -/
def H0R : BlockR → String := fun _ => ""

/-- The genesis `previous_hash` value `"0" * 64`. -/
def zeros64 : String := String.mk (List.replicate 64 '0')

/-- A genesis block premining 1000 units to `addrS` (shape produced by
`_create_genesis_block`). -/
def gblock0 : Block :=
  ⟨0, 0, [⟨"GENESIS_FAUCET", addrS, 1000, 0, none, none⟩], zeros64, 0, 1⟩

/-- A node whose stored chain is just `gblock0`. -/
def s0 : Node := ⟨[gblock0], [], []⟩

/-- `addrS` sends 100 to `addrB` with nonce 0, signed. -/
def tx0 : Transaction := ⟨addrS, addrB, 100, 0, some "pk", some "sg"⟩

/-- `addrS` sends 100 to `addrB` with nonce 1, signed. -/
def tx1 : Transaction := ⟨addrS, addrB, 100, 1, some "pk", some "sh"⟩

/-- Candidate block carrying the two consecutive-nonce transactions of
`addrS` (difficulty 0, so its proof-of-work holds under any digest). -/
def cblock : Block := ⟨1, 5, [tx0, tx1], "x", 0, 0⟩

/-- The node `s0` after a block containing only `tx0`: the ledger state
in which `tx1` is the next legitimate transaction of `addrS`. -/
def s0seq : Node := ⟨[gblock0, ⟨1, 5, [tx0], "x", 0, 0⟩], [], []⟩

/-- A coinbase reward transaction. -/
def txC : Transaction := ⟨"COINBASE", addrB, 50, 0, none, none⟩

/-- A genesis-shaped block of difficulty 1 whose only transaction is the
(unconditionally valid) coinbase `txC`. -/
def gB2 : Block := ⟨0, 0, [txC], zeros64, 0, 1⟩

/-- Genesis of a candidate chain that premines nothing (difficulty 0). -/
def g3 : Block := ⟨0, 0, [], zeros64, 0, 0⟩

/-- Candidate block spending 100 from `addrS` — an address that candidate
chain `c3` itself never funds; `previous_hash` matches `H0 g3`. -/
def b3 : Block := ⟨1, 2, [tx0], "", 0, 0⟩

/-- A candidate chain whose own projection puts `addrS` at -100. -/
def c3 : List Block := [g3, b3]

/-- A transaction dict missing the required `sender` key. -/
def rawBad : RawTx := ⟨none, some addrB, some 5, some 0, none, none, []⟩

/-- A block whose transaction list holds the malformed dict `rawBad`. -/
def bBad : BlockR := ⟨1, 0, [rawBad], "", 0, 0⟩

/-- A well-formed coinbase transaction dict. -/
def rawGood : RawTx := ⟨some "COINBASE", some addrB, some 5, some 0, none, none, []⟩

/-- A block whose transaction dicts all rehydrate. -/
def bGood : BlockR := ⟨1, 0, [rawGood], "", 0, 0⟩

/-- The projection scenario chain: genesis premines address `A` with
1000; in block 1 (difficulty 1) `A` sends 100 to `B` with nonce 0. -/
def demoChain : List Block :=
  [⟨0, 0, [⟨"GENESIS_FAUCET", "A", 1000, 0, none, none⟩], zeros64, 0, 1⟩,
   ⟨1, 1, [⟨"A", "B", 100, 0, some "pk", some "sg"⟩], "h", 3, 1⟩]

/-- A per-nonce digest function whose first zero-leading digest occurs at
nonce 2. -/
def hBw : Nat → String := fun n => if n == 2 then "0a" else "ff"

/-- Fetch outcomes: one peer unreachable, one peer serving the valid
two-block chain `c3` (longer than `s0.chain`). -/
def rsW : List (Option (List Block)) := [none, some c3]

/-- Concrete ecdsa primitives: the hex string "zz" is malformed, every
other input parses, and every signature checks. -/
def Pw : SigPrims :=
  ⟨fun h => if h == "zz" then Except.error "ValueError" else Except.ok [],
   fun _ => Except.ok [],
   fun _ _ _ => Except.ok (),
   fun _ _ _ _ => []⟩

/-- C10: the validation operations are read-only — `validate_transaction`,
`validate_block` and `validate_chain` leave the node state (chain,
pending pool, peer set) unchanged for every input and either outcome. -/
theorem validators_read_only (H : Block → String) (V : VerifyFn) (A : AddrFn)
    (s : Node) (tx : Transaction) (b : Block) (p : Option Block)
    (c : List Block) :
    (validate_transactionS V A s tx).1 = s ∧
    (validate_blockS H V A s b p).1 = s ∧
    (validate_chainS H V A s c).1 = s ∧
    (validate_transactionS V A s tx).2 = validate_transaction V A s tx ∧
    (validate_blockS H V A s b p).2 = validate_block H V A s b p ∧
    (validate_chainS H V A s c).2 = validate_chain H V A s c :=
  ⟨rfl, rfl, rfl, rfl, rfl, rfl⟩

/-- C2 (amended): with `previous_block = None` the Block Validator skips
the linkage check but still performs the proof-of-work check: the block
is accepted iff its digest has `difficulty` leading zero hex characters
and all its transactions validate. -/
theorem validate_block_genesis_case (H : Block → String) (V : VerifyFn)
    (A : AddrFn) (s : Node) (b : Block) :
    validate_block H V A s b none =
      (starts_zeros (H b) b.difficulty &&
       b.transactions.all (fun t => validate_transaction V A s t)) := by
  unfold validate_block
  cases starts_zeros (H b) b.difficulty <;> simp

/-- C2 counterexample: a genesis-shaped block all of whose transactions
validate, rejected by `validate_block(block, None)` because its digest
does not have `difficulty` leading zero hex characters (the claim says
such a block is still accepted). -/
theorem genesis_pow_not_skipped :
    gB2.transactions.all (fun t => validate_transaction V0 A0 s0 t) = true ∧
    validate_block H2 V0 A0 s0 gB2 none = false := by
  constructor <;> decide

/-- C1 counterexample: two transactions of the same sender with
consecutive nonces 0 and 1, each individually valid against the state it
would see under sequential in-block projection (`s0` resp. `s0seq`), yet
the block holding both is rejected — `validate_block` checks every
transaction against the unchanged stored-chain state, where only nonce 0
is acceptable. -/
theorem inblock_sequential_nonces_rejected :
    validate_transaction V0 A0 s0 tx0 = true ∧
    validate_transaction V0 A0 s0seq tx1 = true ∧
    validate_block H0 V0 A0 s0 cblock none = false := by
  refine ⟨by decide, by decide, by decide⟩

/-- C3: failing input for the claim that chains accepted by
`validate_chain` project to nonnegative balances.  The node `s0` accepts
the candidate chain `c3` — its transactions are validated against the
node's own stored chain, which funds `addrS` — although `c3`'s own
projection gives the ordinary address `addrS` the balance -100. -/
theorem accepted_chain_negative_balance :
    validate_chain H0 V0 A0 s0 c3 = true ∧
    (compute_balances_and_nonces c3).1 addrS = -100 ∧
    addrS ≠ "COINBASE" ∧ addrS ≠ "GENESIS_FAUCET" := by
  refine ⟨by decide, by decide, by decide, by decide⟩

/-- C7 counterexample: `validate_block` applied to a block whose
transaction entry lacks the required `sender` field does not return a
boolean — the rehydration `Transaction(**t)` raises a `TypeError` that
escapes to the caller. -/
theorem malformed_tx_dict_raises :
    validate_blockE H0R V0 A0 s0 bBad none = Except.error "TypeError" := rfl

/-- C4: full characterization of the Transaction Validator — a special
sender (COINBASE / GENESIS_FAUCET) is accepted unconditionally; any
other transaction is accepted iff pubkey and signature are present (in
the Python-truthiness sense: not None and not empty), the signature
verifies, the address derived from the pubkey equals the sender, the
amount is positive, the sender's projected balance covers the amount,
and the nonce equals the sender's expected next nonce exactly (so a
nonce below the expected one — already consumed — is rejected). -/
theorem validate_transaction_characterization (V : VerifyFn) (A : AddrFn)
    (s : Node) (tx : Transaction) :
    validate_transaction V A s tx = true ↔
      ((tx.sender = "COINBASE" ∨ tx.sender = "GENESIS_FAUCET") ∨
       (truthy tx.pubkey = true ∧ truthy tx.signature = true ∧
        V (tx.pubkey.getD "") (tx.signature.getD "") tx.sender tx.recipient
          tx.amount tx.nonce = true ∧
        A (tx.pubkey.getD "") = tx.sender ∧
        0 < tx.amount ∧
        tx.amount ≤ (compute_balances_and_nonces s.chain).1 tx.sender ∧
        tx.nonce = (compute_balances_and_nonces s.chain).2 tx.sender)) := by
  simp only [validate_transaction, Transaction.is_coinbase]
  split_ifs with h1 h2 h3 h4 h5 h6 h7 <;>
    simp_all [truthy, Bool.or_eq_true, beq_iff_eq, bne]
  all_goals
    first
    | omega
    | (intros; rcases h2 with h2 | h2 <;> simp_all)

/-- C4 witness: the characterization applied to the concrete coinbase
transaction `txC`. -/
theorem validate_transaction_characterization_w :
    validate_transaction V0 A0 s0 txC = true :=
  (validate_transaction_characterization V0 A0 s0 txC).mpr
    (Or.inl (Or.inl rfl))

/-- C1 (amended): the Block Validator checks every transaction of the
candidate block against the single ledger state projected from the
node's currently stored chain — the in-block transactions are NOT
applied to the state between checks — and any single failing transaction
rejects the whole block. -/
theorem validate_block_static_state (H : Block → String) (V : VerifyFn)
    (A : AddrFn) (s : Node) (b : Block) (p : Option Block) :
    (validate_block H V A s b p = true ↔
      ((∀ prev, p = some prev →
          (b.previous_hash = H prev ∧ b.index = prev.index + 1)) ∧
       starts_zeros (H b) b.difficulty = true ∧
       ∀ tx ∈ b.transactions, validate_transaction V A s tx = true)) ∧
    (∀ tx ∈ b.transactions, validate_transaction V A s tx = false →
       validate_block H V A s b p = false) := by
  constructor
  · unfold validate_block
    cases p with
    | none => simp [List.all_eq_true]
    | some prev =>
        simp [List.all_eq_true, Bool.and_eq_true, beq_iff_eq]
  · intro tx htx hf
    cases hval : validate_block H V A s b p with
    | false => rfl
    | true =>
        exfalso
        have h := hval
        unfold validate_block at h
        cases p <;> simp_all [List.all_eq_true]

/-- C1 witness: the amended characterization instantiated at a concrete
accepted block (one transaction, matching the stored-chain nonce). -/
theorem validate_block_static_state_w :
    validate_block H0 V0 A0 s0 ⟨1, 5, [tx0], "x", 0, 0⟩ none = true := by
  refine (validate_block_static_state H0 V0 A0 s0
      ⟨1, 5, [tx0], "x", 0, 0⟩ none).1.mpr ⟨?_, by decide, ?_⟩
  · intro prev hp
    cases hp
  · intro tx htx
    have h : tx = tx0 := by simpa using htx
    subst h
    decide

/-- C9: `verify_signature` is total (Bool-valued) and fails closed — it
returns true exactly when hex-decoding the pubkey, reconstructing the
curve point, hex-decoding the signature and checking it against the
canonical payload encoding all succeed; a failure (raised exception) at
any of these steps yields false. -/
theorem verify_signature_fails_closed (P : SigPrims)
    (pk sg sender recipient : String) (amount nonce : Int) :
    (verify_signature P pk sg sender recipient amount nonce = true ↔
       ∃ pkb vk sigb,
         P.fromHex pk = Except.ok pkb ∧
         P.keyFrom pkb = Except.ok vk ∧
         P.fromHex sg = Except.ok sigb ∧
         P.chk vk sigb (P.encodeMsg sender recipient amount nonce) =
           Except.ok ()) ∧
    (∀ e, P.fromHex pk = Except.error e →
       verify_signature P pk sg sender recipient amount nonce = false) ∧
    (∀ pkb e, P.fromHex pk = Except.ok pkb →
       P.keyFrom pkb = Except.error e →
       verify_signature P pk sg sender recipient amount nonce = false) ∧
    (∀ pkb vk e, P.fromHex pk = Except.ok pkb →
       P.keyFrom pkb = Except.ok vk →
       P.fromHex sg = Except.error e →
       verify_signature P pk sg sender recipient amount nonce = false) ∧
    (∀ pkb vk sigb e, P.fromHex pk = Except.ok pkb →
       P.keyFrom pkb = Except.ok vk →
       P.fromHex sg = Except.ok sigb →
       P.chk vk sigb (P.encodeMsg sender recipient amount nonce) =
         Except.error e →
       verify_signature P pk sg sender recipient amount nonce = false) := by
  refine ⟨⟨?_, ?_⟩, ?_, ?_, ?_, ?_⟩
  · intro h
    rcases hpk : P.fromHex pk with e | pkb
    · simp [verify_signature, hpk] at h
    rcases hk : P.keyFrom pkb with e | vk
    · simp [verify_signature, hpk, hk] at h
    rcases hsg : P.fromHex sg with e | sigb
    · simp [verify_signature, hpk, hk, hsg] at h
    rcases hc : P.chk vk sigb (P.encodeMsg sender recipient amount nonce)
        with e | u
    · simp [verify_signature, hpk, hk, hsg, hc] at h
    · exact ⟨pkb, vk, sigb, rfl, hk, rfl, by cases u; exact hc⟩
  · rintro ⟨pkb, vk, sigb, hpk, hk, hsg, hc⟩
    simp [verify_signature, hpk, hk, hsg, hc]
  · intro e h
    simp [verify_signature, h]
  · intro pkb e h1 h2
    simp [verify_signature, h1, h2]
  · intro pkb vk e h1 h2 h3
    simp [verify_signature, h1, h2, h3]
  · intro pkb vk sigb e h1 h2 h3 h4
    simp [verify_signature, h1, h2, h3, h4]

/-- C9 witness: the fail-closed theorem instantiated at the concrete
primitives `Pw` — a malformed pubkey hex yields false, and a fully
succeeding pipeline yields true. -/
theorem verify_signature_fails_closed_w :
    verify_signature Pw "zz" "sg" addrS addrB 5 0 = false ∧
    verify_signature Pw "pk" "sg" addrS addrB 5 0 = true := by
  constructor
  · exact (verify_signature_fails_closed Pw "zz" "sg" addrS addrB 5 0).2.1
      "ValueError" rfl
  · exact (verify_signature_fails_closed Pw "pk" "sg" addrS addrB 5 0).1.mpr
      ⟨[], [], [], rfl, rfl, rfl, rfl⟩

/-- Helper: when every transaction dict of the list rehydrates, the
transaction loop of `validate_block` returns a boolean. -/
theorem validate_txsE_ok (V : VerifyFn) (A : AddrFn) (s : Node) :
    ∀ l : List RawTx,
      (∀ t ∈ l, ∃ tx', rehydrate t = Except.ok tx') →
      ∃ r : Bool, validate_txsE V A s l = Except.ok r := by
  intro l
  induction l with
  | nil => exact fun _ => ⟨true, rfl⟩
  | cons t rest ih =>
      intro h
      obtain ⟨tx', htx⟩ := h t (by simp)
      obtain ⟨r, hr⟩ := ih (fun t' ht' => h t' (by simp [ht']))
      by_cases hv : validate_transaction V A s tx' = true
      · exact ⟨r, by simp [validate_txsE, htx, hv, hr]⟩
      · exact ⟨false, by simp [validate_txsE, htx, hv]⟩

/-- Helper: when every transaction dict of the block rehydrates,
`validate_block` returns a boolean. -/
theorem validate_blockE_ok (HR : BlockR → String) (V : VerifyFn)
    (A : AddrFn) (s : Node) (b : BlockR) (p : Option BlockR)
    (h : ∀ t ∈ b.transactions, ∃ tx', rehydrate t = Except.ok tx') :
    ∃ r : Bool, validate_blockE HR V A s b p = Except.ok r := by
  obtain ⟨r, hr⟩ := validate_txsE_ok V A s b.transactions h
  unfold validate_blockE
  split_ifs
  · exact ⟨false, rfl⟩
  · exact ⟨false, rfl⟩
  · exact ⟨r, hr⟩

/-- Helper: when every transaction dict of every block rehydrates, the
chain walk returns a boolean. -/
theorem validate_chainE_from_ok (HR : BlockR → String) (V : VerifyFn)
    (A : AddrFn) (s : Node) :
    ∀ (c : List BlockR) (prev : Option BlockR),
      (∀ blk ∈ c, ∀ t ∈ blk.transactions,
         ∃ tx', rehydrate t = Except.ok tx') →
      ∃ r : Bool, validate_chainE_from HR V A s prev c = Except.ok r := by
  intro c
  induction c with
  | nil => exact fun _ _ => ⟨true, rfl⟩
  | cons b rest ih =>
      intro prev h
      obtain ⟨rb, hb⟩ := validate_blockE_ok HR V A s b prev (h b (by simp))
      cases rb with
      | false => exact ⟨false, by simp [validate_chainE_from, hb]⟩
      | true =>
          obtain ⟨r, hr⟩ := ih (some b) (fun blk hblk => h blk (by simp [hblk]))
          exact ⟨r, by simp [validate_chainE_from, hb, hr]⟩

/-- C7 (amended): `validate_transaction` always returns a boolean, and
`validate_block` / `validate_chain` return a boolean (raise nothing) for
every input whose transaction entries all have exactly the required
fields; the rehydration `Transaction(**t)` of a malformed entry raises a
TypeError that escapes both (see the counterexample). -/
theorem validatorsE_total (HR : BlockR → String) (V : VerifyFn)
    (A : AddrFn) (s : Node) (tx : Transaction) (b : BlockR)
    (p : Option BlockR) (c : List BlockR) :
    (validate_transaction V A s tx = true ∨
     validate_transaction V A s tx = false) ∧
    ((∀ t ∈ b.transactions, ∃ tx', rehydrate t = Except.ok tx') →
       ∃ r : Bool, validate_blockE HR V A s b p = Except.ok r) ∧
    ((∀ blk ∈ c, ∀ t ∈ blk.transactions,
        ∃ tx', rehydrate t = Except.ok tx') →
       ∃ r : Bool, validate_chainE HR V A s c = Except.ok r) := by
  refine ⟨?_, ?_, ?_⟩
  · cases validate_transaction V A s tx
    · exact Or.inr rfl
    · exact Or.inl rfl
  · exact validate_blockE_ok HR V A s b p
  · exact validate_chainE_from_ok HR V A s c none

/-- C7 witness: the totality theorem instantiated at the concrete
well-formed block `bGood` — on it, `validate_block` returns a boolean. -/
theorem validatorsE_total_w :
    (validate_blockE H0R V0 A0 s0 bGood none).isOk = true := by
  have hok : ∀ t ∈ bGood.transactions,
      ∃ tx', rehydrate t = Except.ok tx' := by
    intro t ht
    have h : t = rawGood := by simpa [bGood] using ht
    subst h
    exact ⟨_, rfl⟩
  obtain ⟨r, hr⟩ := (validatorsE_total H0R V0 A0 s0 txC bGood none []).2.1 hok
  rw [hr]
  rfl

/-- Helper: the nested block/transaction fold of the projector equals a
single fold over the chain's transactions flattened in order. -/
theorem foldl_blocks_flatten (init : (String → Int) × (String → Int)) :
    ∀ chain : List Block,
      chain.foldl (fun bn block => block.transactions.foldl applyTx bn) init =
        ((chain.map (fun b => b.transactions)).flatten).foldl applyTx init := by
  intro chain
  induction chain generalizing init with
  | nil => rfl
  | cons b rest ih =>
      simp only [List.foldl_cons, List.map_cons, List.flatten_cons,
        List.foldl_append]
      exact ih (b.transactions.foldl applyTx init)

/-- C8: the Ledger Projector folds over blocks in chain order and
transactions in list order (equivalently: over the flattened transaction
sequence); a non-special transaction debits the sender by `amount` and
raises the sender's expected nonce to `max(old, nonce + 1)`, a special
transaction touches no sender state, and every transaction credits the
recipient by `amount`; on the scenario chain (genesis premines `A` with
1000, block 1 has `A` sending 100 to `B` with nonce 0) the projection
gives `A` balance 900, `B` balance 100 and `A` expected nonce 1. -/
theorem projector_spec :
    (∀ chain : List Block,
       compute_balances_and_nonces chain =
         ((chain.map (fun b => b.transactions)).flatten).foldl applyTx
           ((fun _ => 0), (fun _ => 0))) ∧
    (∀ bal non (tx : Transaction),
       tx.sender ≠ "COINBASE" → tx.sender ≠ "GENESIS_FAUCET" →
       tx.sender ≠ tx.recipient →
       ((applyTx (bal, non) tx).1 tx.sender = bal tx.sender - tx.amount ∧
        (applyTx (bal, non) tx).1 tx.recipient =
          bal tx.recipient + tx.amount ∧
        (applyTx (bal, non) tx).2 tx.sender =
          max (non tx.sender) (tx.nonce + 1) ∧
        (∀ x, x ≠ tx.sender → x ≠ tx.recipient →
           (applyTx (bal, non) tx).1 x = bal x) ∧
        (∀ x, x ≠ tx.sender → (applyTx (bal, non) tx).2 x = non x))) ∧
    (∀ bal non (tx : Transaction),
       (tx.sender = "COINBASE" ∨ tx.sender = "GENESIS_FAUCET") →
       ((applyTx (bal, non) tx).1 tx.recipient =
          bal tx.recipient + tx.amount ∧
        (∀ x, x ≠ tx.recipient → (applyTx (bal, non) tx).1 x = bal x) ∧
        (applyTx (bal, non) tx).2 = non)) ∧
    ((compute_balances_and_nonces demoChain).1 "A" = 900 ∧
     (compute_balances_and_nonces demoChain).1 "B" = 100 ∧
     (compute_balances_and_nonces demoChain).2 "A" = 1) := by
  refine ⟨?_, ?_, ?_, by decide, by decide, by decide⟩
  · intro chain
    exact foldl_blocks_flatten ((fun _ => 0), (fun _ => 0)) chain
  · intro bal non tx hs1 hs2 hsr
    have hcond : (tx.sender == "COINBASE" || tx.sender == "GENESIS_FAUCET")
        = false := by simp [hs1, hs2]
    refine ⟨?_, ?_, ?_, ?_, ?_⟩
    · simp [applyTx, upd, hcond, hsr]
    · simp [applyTx, upd, hcond, Ne.symm hsr]
    · simp [applyTx, upd, hcond]
    · intro x hx1 hx2
      simp [applyTx, upd, hcond, hx1, hx2]
    · intro x hx1
      simp [applyTx, upd, hcond, hx1]
  · intro bal non tx hs
    have hcond : (tx.sender == "COINBASE" || tx.sender == "GENESIS_FAUCET")
        = true := by rcases hs with h | h <;> simp [h]
    refine ⟨?_, ?_, ?_⟩
    · simp [applyTx, upd, hcond]
    · intro x hx
      simp [applyTx, upd, hcond, hx]
    · simp [applyTx, upd, hcond]

/-- C8 witness: the per-transaction rules instantiated at a concrete
non-special transaction and ledger state. -/
theorem projector_spec_w :
    (applyTx ((fun _ => 0), (fun _ => 0)) tx0).1 addrS = -100 ∧
    (applyTx ((fun _ => 0), (fun _ => 0)) tx0).2 addrS = 1 := by
  have h := projector_spec.2.1 (fun _ => 0) (fun _ => 0) tx0
    (by decide) (by decide) (by decide)
  exact ⟨h.1, h.2.2.1⟩

/-- Helper: anything the search loop returns satisfies the difficulty
predicate and is the first satisfying nonce at or after the start. -/
theorem pow_loop_sound (hB : Nat → String) (d : Int) :
    ∀ fuel n r, pow_loop hB d fuel n = some r →
      powHit hB d r = true ∧ n ≤ r ∧
      ∀ m, n ≤ m → m < r → powHit hB d m = false := by
  intro fuel
  induction fuel with
  | zero =>
      intro n r h
      simp [pow_loop] at h
  | succ fuel ih =>
      intro n r h
      by_cases hh : powHit hB d n = true
      · simp [pow_loop, hh] at h
        subst h
        exact ⟨hh, Nat.le_refl n, fun m h1 h2 => absurd h1 (by omega)⟩
      · simp [pow_loop, hh] at h
        obtain ⟨h1, h2, h3⟩ := ih (n + 1) r h
        refine ⟨h1, by omega, ?_⟩
        intro m hm1 hm2
        rcases Nat.eq_or_lt_of_le hm1 with he | hlt
        · subst he
          simpa using hh
        · exact h3 m (by omega) hm2

/-- Helper: given enough fuel the search loop reaches the first
satisfying nonce at or after the start. -/
theorem pow_loop_complete (hB : Nat → String) (d : Int) (N : Nat)
    (hN : powHit hB d N = true) :
    ∀ fuel n, n ≤ N → N < n + fuel →
      (∀ m, n ≤ m → m < N → powHit hB d m = false) →
      pow_loop hB d fuel n = some N := by
  intro fuel
  induction fuel with
  | zero =>
      intro n h1 h2 _
      exact absurd h2 (by omega)
  | succ fuel ih =>
      intro n h1 h2 h3
      by_cases hh : powHit hB d n = true
      · have he : n = N := by
          rcases Nat.eq_or_lt_of_le h1 with he | hlt
          · exact he
          · exact absurd hh (by simp [h3 n (Nat.le_refl n) hlt])
        subst he
        simp [pow_loop, hh]
      · have hnN : n < N := by
          rcases Nat.eq_or_lt_of_le h1 with he | hlt
          · subst he
            exact absurd hN hh
          · exact hlt
        simp [pow_loop, hh]
        exact ih (n + 1) (by omega) (by omega)
          (fun m hm1 hm2 => h3 m (by omega) hm2)

/-- C5: when some nonce satisfies the difficulty predicate,
`proof_of_work` (started at nonce 0, incrementing by 1) returns exactly
the smallest satisfying nonce whenever it returns, returns it once given
enough fuel, and repeated calls on the same inputs agree. -/
theorem proof_of_work_minimal (hB : Nat → String) (d : Int)
    (h : ∃ n, powHit hB d n = true) :
    powHit hB d (Nat.find h) = true ∧
    (∀ m < Nat.find h, powHit hB d m = false) ∧
    (∀ fuel, Nat.find h < fuel →
       proof_of_work hB d fuel = some (Nat.find h)) ∧
    (∀ fuel r, proof_of_work hB d fuel = some r → r = Nat.find h) := by
  have hspec : powHit hB d (Nat.find h) = true := Nat.find_spec h
  have hmin : ∀ m < Nat.find h, powHit hB d m = false := by
    intro m hm
    simpa using Nat.find_min h hm
  refine ⟨hspec, hmin, ?_, ?_⟩
  · intro fuel hf
    exact pow_loop_complete hB d (Nat.find h) hspec fuel 0 (Nat.zero_le _)
      (by omega) (fun m _ hm => hmin m hm)
  · intro fuel r hr
    obtain ⟨h1, _, h3⟩ := pow_loop_sound hB d fuel 0 r hr
    have hle : Nat.find h ≤ r := Nat.find_min' h h1
    rcases Nat.eq_or_lt_of_le hle with he | hlt
    · exact he.symm
    · exact absurd hspec (by simp [h3 (Nat.find h) (Nat.zero_le _) hlt])

/-- C5 witness: under the concrete digest function `hBw` (first
zero-leading digest at nonce 2) the search returns nonce 2. -/
theorem proof_of_work_minimal_w :
    powHit hBw 1 2 = true ∧ proof_of_work hBw 1 5 = some 2 := by
  have hex : ∃ n, powHit hBw 1 n = true := ⟨2, by decide⟩
  have h := proof_of_work_minimal hBw 1 hex
  have hcomp : proof_of_work hBw 1 5 = some 2 := by decide
  have h2 : (2 : Nat) = Nat.find hex := h.2.2.2 5 2 hcomp
  refine ⟨?_, hcomp⟩
  rw [h2]
  exact h.1

/-- Helper: a successful fetch contributes its chain to the candidate list. -/
theorem candidates_cons_some (remote : List Block)
    (rest : List (Option (List Block))) :
    candidates (some remote :: rest) = remote :: candidates rest := by
  simp [candidates]

/-- Helper: a failed fetch contributes nothing to the candidate list. -/
theorem candidates_cons_none (rest : List (Option (List Block))) :
    candidates (none :: rest) = candidates rest := by
  simp [candidates]

/-- Helper: invariant of the peer loop — the running longest chain is
the initial one or a valid fetched candidate strictly longer than it, it
is at least as long as every valid fetched candidate, and the replaced
flag is set exactly when some valid candidate strictly longer than the
initial chain was seen. -/
theorem rc_loop_inv (H : Block → String) (V : VerifyFn) (A : AddrFn)
    (s : Node) :
    ∀ (rs : List (Option (List Block))) (l : List Block) (rep : Bool),
      ((rc_loop H V A s rs (l, rep)).1 = l ∨
        ((rc_loop H V A s rs (l, rep)).1 ∈ candidates rs ∧
         validate_chain H V A s (rc_loop H V A s rs (l, rep)).1 = true ∧
         l.length < (rc_loop H V A s rs (l, rep)).1.length)) ∧
      (∀ c ∈ candidates rs, validate_chain H V A s c = true →
         c.length ≤ (rc_loop H V A s rs (l, rep)).1.length) ∧
      ((rc_loop H V A s rs (l, rep)).2 =
        (rep || (candidates rs).any (fun c =>
           decide (l.length < c.length) && validate_chain H V A s c))) := by
  intro rs
  induction rs with
  | nil =>
      intro l rep
      exact ⟨Or.inl rfl, by simp [candidates], by simp [candidates, rc_loop]⟩
  | cons o rest ih =>
      intro l rep
      cases o with
      | none => simpa [rc_loop, candidates] using ih l rep
      | some remote =>
          cases hcond : (decide (l.length < remote.length) &&
              validate_chain H V A s remote) with
          | false =>
              obtain ⟨ih1, ih2, ih3⟩ := ih l rep
              have hred : rc_loop H V A s (some remote :: rest) (l, rep) =
                  rc_loop H V A s rest (l, rep) := by
                simp [rc_loop, hcond]
              rw [hred]
              refine ⟨?_, ?_, ?_⟩
              · rcases ih1 with h | ⟨hm, hv, hl⟩
                · exact Or.inl h
                · exact Or.inr ⟨by
                    rw [candidates_cons_some]
                    exact List.mem_cons_of_mem _ hm, hv, hl⟩
              · intro c hc hv
                rcases (by simpa [candidates] using hc :
                    c = remote ∨ c ∈ candidates rest) with he | hm
                · subst he
                  have hnl : ¬(l.length < c.length) := by
                    intro hlt
                    simp [hv, hlt] at hcond
                  have hll : l.length ≤
                      (rc_loop H V A s rest (l, rep)).1.length := by
                    rcases ih1 with h | ⟨_, _, hl⟩
                    · rw [h]
                    · omega
                  omega
                · exact ih2 c hm hv
              · rw [ih3]
                simp [candidates, hcond]
          | true =>
              obtain ⟨ih1, ih2, ih3⟩ := ih remote true
              have hlt : l.length < remote.length := by
                have := hcond
                simp [Bool.and_eq_true] at this
                exact this.1
              have hv : validate_chain H V A s remote = true := by
                have := hcond
                simp [Bool.and_eq_true] at this
                exact this.2
              have hred : rc_loop H V A s (some remote :: rest) (l, rep) =
                  rc_loop H V A s rest (remote, true) := by
                simp [rc_loop, hcond]
              rw [hred]
              refine ⟨?_, ?_, ?_⟩
              · rcases ih1 with h | ⟨hm, hv2, hl⟩
                · exact Or.inr ⟨by
                    rw [candidates_cons_some, h]
                    exact List.mem_cons_self _ _, by rw [h]; exact hv,
                    by rw [h]; exact hlt⟩
                · exact Or.inr ⟨by
                    rw [candidates_cons_some]
                    exact List.mem_cons_of_mem _ hm, hv2, by omega⟩
              · intro c hc hvc
                rcases (by simpa [candidates] using hc :
                    c = remote ∨ c ∈ candidates rest) with he | hm
                · subst he
                  rcases ih1 with h | ⟨_, _, hl⟩
                  · rw [h]
                  · omega
                · exact ih2 c hm hvc
              · rw [ih3]
                simp [candidates, hcond]

/-- C6: `resolve_conflicts` replaces the local chain iff some
successfully fetched candidate chain passes the Chain Validator and is
strictly longer than the local chain, returning true exactly on
replacement; on replacement the adopted chain is a fetched, valid,
strictly longer candidate of maximal length among valid candidates; a
longer-but-invalid candidate never replaces the chain (it is not valid,
so it can never witness the iff); failed fetches are skipped without
affecting the result; the pending pool and peer set are untouched. -/
theorem resolve_conflicts_spec (H : Block → String) (V : VerifyFn)
    (A : AddrFn) (s : Node) (rs : List (Option (List Block))) :
    ((resolve_conflicts H V A s rs).2 = true ↔
       ∃ c ∈ candidates rs, s.chain.length < c.length ∧
         validate_chain H V A s c = true) ∧
    ((resolve_conflicts H V A s rs).2 = false →
       (resolve_conflicts H V A s rs).1 = s) ∧
    ((resolve_conflicts H V A s rs).2 = true →
       ((resolve_conflicts H V A s rs).1.chain ∈ candidates rs ∧
        validate_chain H V A s (resolve_conflicts H V A s rs).1.chain
          = true ∧
        s.chain.length < (resolve_conflicts H V A s rs).1.chain.length ∧
        ∀ c ∈ candidates rs, validate_chain H V A s c = true →
          c.length ≤ (resolve_conflicts H V A s rs).1.chain.length)) ∧
    (∀ rest, resolve_conflicts H V A s (none :: rest) =
       resolve_conflicts H V A s rest) ∧
    ((resolve_conflicts H V A s rs).1.current_transactions =
       s.current_transactions ∧
     (resolve_conflicts H V A s rs).1.nodes = s.nodes) := by
  obtain ⟨hinv1, hinv2, hinv3⟩ := rc_loop_inv H V A s rs s.chain false
  have hsnd : (resolve_conflicts H V A s rs).2 =
      (rc_loop H V A s rs (s.chain, false)).2 := by
    unfold resolve_conflicts
    cases h : (rc_loop H V A s rs (s.chain, false)).2 <;> simp [h]
  refine ⟨?_, ?_, ?_, ?_, ?_⟩
  · rw [hsnd, hinv3]
    simp [List.any_eq_true, Bool.and_eq_true, decide_eq_true_eq]
  · intro h2
    rw [hsnd] at h2
    unfold resolve_conflicts
    simp [h2]
  · intro h2
    rw [hsnd] at h2
    have hfst : (resolve_conflicts H V A s rs).1.chain =
        (rc_loop H V A s rs (s.chain, false)).1 := by
      unfold resolve_conflicts
      simp [h2]
    have hex : ∃ c ∈ candidates rs, s.chain.length < c.length ∧
        validate_chain H V A s c = true := by
      rw [hinv3] at h2
      simpa [List.any_eq_true, Bool.and_eq_true, decide_eq_true_eq] using h2
    obtain ⟨c, hc, hclt, hcv⟩ := hex
    have hne : ¬((rc_loop H V A s rs (s.chain, false)).1 = s.chain) := by
      intro h
      have := hinv2 c hc hcv
      rw [h] at this
      omega
    rcases hinv1 with h | ⟨hm, hv, hl⟩
    · exact absurd h hne
    · rw [hfst]
      exact ⟨hm, hv, hl, hinv2⟩
  · intro rest
    rfl
  · unfold resolve_conflicts
    cases h : (rc_loop H V A s rs (s.chain, false)).2 <;> simp [h]

/-- C6 witness: with one unreachable peer and one peer serving the valid
two-block chain `c3`, the node (local chain of length 1) adopts `c3`. -/
theorem resolve_conflicts_spec_w :
    (resolve_conflicts H0 V0 A0 s0 rsW).2 = true ∧
    (resolve_conflicts H0 V0 A0 s0 rsW).1.chain ∈ candidates rsW := by
  have h := resolve_conflicts_spec H0 V0 A0 s0 rsW
  have h2 : (resolve_conflicts H0 V0 A0 s0 rsW).2 = true := by
    refine h.1.mpr ⟨c3, ?_, ?_, ?_⟩
    · decide
    · decide
    · decide
  exact ⟨h2, ((h.2.2.1) h2).1⟩

end Cypher
